import Mathlib

/-!
Verification of the beancount document-discovery module
(`beancount/ops/documents.py`) against its natural-language specification.

The module has three components:
* `verify_document_entries` (Entry Verifier): checks that every Document
  directive's file exists on disk;
* `find_documents` (Document Finder): walks a directory tree, matches
  dated filenames, and synthesizes Document directives;
* `process_documents` (Orchestrator): runs the verifier, runs the finder
  once per configured root, merges and sorts entries, concatenates errors.

The filesystem (existence checks and the `account.walk` collaborator), the
account-extraction collaborator `getters.get_accounts`, and the global sort
key `data.entry_sortkey` are external to the source file under scrutiny;
they are modelled as explicit parameters, so every theorem quantifies over
them.  Python exceptions are modelled with `Except`: the unguarded
`datetime.date` construction is the only statement in the module that can
raise on otherwise well-formed input.
-/

/-- Source location: originating file path and line number
(`beancount.core.data.Source`). -/
structure Source where
  file : String
  lineno : Nat
deriving DecidableEq, Repr

/-- Calendar date as constructed by `datetime.date`.  Validity is enforced
by `mkDate` below, mirroring the constructor raising `ValueError`. -/
structure Date where
  year : Nat
  month : Nat
  day : Nat
deriving DecidableEq, Repr

/-- Whether a year is a leap year, as in `calendar.isleap` /
`datetime`'s internal `_is_leap`. -/
def isLeap (y : Nat) : Bool :=
  y % 4 == 0 && (y % 100 != 0 || y % 400 == 0)

/-- Days in a month, as in `datetime`'s `_days_in_month`. -/
def daysInMonth (y m : Nat) : Nat :=
  if m == 2 then (if isLeap y then 29 else 28)
  else if m == 4 || m == 6 || m == 9 || m == 11 then 30
  else 31

/-- Fallible date constructor modelling `datetime.date(y, m, d)`: `none`
exactly when the Python constructor raises `ValueError` (year outside
1..9999, month outside 1..12, or day outside 1..days-in-month). -/
def mkDate (y m d : Nat) : Option Date :=
  if 1 ≤ y ∧ y ≤ 9999 ∧ 1 ≤ m ∧ m ≤ 12 ∧ 1 ≤ d ∧ d ≤ daysInMonth y m then
    some ⟨y, m, d⟩
  else
    none

/-- Document directive (`beancount.core.data.Document`): a source
location, a date, an account name and a file path. -/
structure Document where
  source : Source
  date : Date
  account : String
  filename : String
deriving DecidableEq, Repr

/-- A directive in the stream.  Only Document directives are inspected by
this module; every other directive kind is opaque. -/
inductive Entry where
  | document : Document → Entry
  | other : Nat → Entry
deriving DecidableEq, Repr

/-- Error record (`DocumentError = namedtuple('DocumentError',
'source message entry')`). -/
structure DocumentError where
  source : Source
  message : String
  entry : Option Entry
deriving DecidableEq, Repr

/-- One tuple produced by the external collaborator `account.walk`: the
visited directory, the account name derived from its path relative to the
root, the subdirectory names and the file names. -/
structure WalkEntry where
  root : String
  account_name : String
  dirs : List String
  files : List String

/-- The filesystem as seen by the module: `os.path.exists` and the
`account.walk` collaborator (spec: a lazy sequence of
`(currentDirectory, derivedAccountName, subdirectoryNames, fileNames)`
tuples in a deterministic traversal order). -/
structure FileSystem where
  pathExists : String → Bool
  walk : String → List WalkEntry

/-- Numeric value of an ASCII digit character. -/
def digitVal (c : Char) : Nat := c.toNat - 48

/-- The result of `re.match('(\x5cd\x5cd\x5cd\x5cd)-(\x5cd\x5cd)-(\x5cd\x5cd).(.*)', filename)`
on the characters of a filename: the regex engine requires four digits, a
hyphen, two digits, a hyphen, two digits, then `.` (any single character
other than a newline); `(.*)` always matches, possibly the empty string.
On success the three captured numeric groups are returned. -/
def reMatchDated : List Char → Option (Nat × Nat × Nat)
  | y1 :: y2 :: y3 :: y4 :: c5 :: m1 :: m2 :: c8 :: d1 :: d2 :: sep :: _ =>
    if y1.isDigit && y2.isDigit && y3.isDigit && y4.isDigit && c5 == '-' &&
       m1.isDigit && m2.isDigit && c8 == '-' && d1.isDigit && d2.isDigit &&
       sep != '\n' then
      some (((digitVal y1 * 10 + digitVal y2) * 10 + digitVal y3) * 10 + digitVal y4,
            digitVal m1 * 10 + digitVal m2,
            digitVal d1 * 10 + digitVal d2)
    else
      none
  | _ => none

/-- Regex match on a filename string. -/
def matchDated (filename : String) : Option (Nat × Nat × Nat) :=
  reMatchDated filename.data

/-- Python `str.startswith`, used by the strict-mode ancestry checks. -/
def pyStartsWith (s pre : String) : Bool :=
  pre.data.isPrefixOf s.data

/-- Truthiness of the `accounts_only` argument: Python treats both `None`
and an empty set as false in `if accounts_only and ...`. -/
def accountsOnlyTruthy (accounts_only : Option (List String)) : Bool :=
  match accounts_only with
  | none => false
  | some l => !l.isEmpty

/-- Whether a POSIX path is absolute (`posixpath.isabs`). -/
def isabs (p : String) : Bool :=
  ['/'].isPrefixOf p.data

/-- Two-argument `posixpath.join`. -/
def joinPath (a b : String) : String :=
  if isabs b then b
  else if a.data.isEmpty || a.data.getLast? == some '/' then a ++ b
  else a ++ "/" ++ b

/-- Drop every trailing occurrence of a character (Python `str.rstrip`
with a single-character argument). -/
def dropTrailing (c : Char) (cs : List Char) : List Char :=
  (cs.reverse.dropWhile (fun x => x == c)).reverse

/-- `posixpath.dirname`: everything up to and including the last slash,
with trailing slashes stripped unless the head is all slashes. -/
def dirname (p : String) : String :=
  let cs := p.data
  let i := match cs.reverse.findIdx? (fun c => c == '/') with
    | none => 0
    | some j => cs.length - j
  let head := cs.take i
  let head := if !head.isEmpty && !(head.all (fun c => c == '/'))
              then dropTrailing '/' head else head
  ⟨head⟩

/-- Split a character list on a separator character (Python `str.split`
with a one-character separator: always returns at least one piece, and
empty pieces are kept). -/
def splitCharAux (sep : Char) : List Char → List Char → List (List Char)
  | [], acc => [acc.reverse]
  | c :: cs, acc =>
    if c == sep then acc.reverse :: splitCharAux sep cs []
    else splitCharAux sep cs (c :: acc)

/-- One iteration of the component loop inside `posixpath.normpath`.  The
accumulator is kept reversed, so Python's `new_comps[-1]` is the head and
`pop` is `tail`. -/
def normStep (initialSlashes : Nat) (acc : List (List Char)) (comp : List Char) :
    List (List Char) :=
  if comp.isEmpty || comp == ['.'] then acc
  else if comp != ['.', '.'] || (initialSlashes == 0 && acc.isEmpty) ||
          acc.head? == some ['.', '.'] then
    comp :: acc
  else if !acc.isEmpty then acc.tail
  else acc

/-- Join path components with slashes (`'/'.join(comps)`). -/
def joinComps : List (List Char) → List Char
  | [] => []
  | [c] => c
  | c :: cs => c ++ '/' :: joinComps cs

/-- The `initial_slashes` count of `posixpath.normpath`: one slash for an
absolute path, two when the path starts with exactly two slashes (POSIX
allows these to be treated specially), one again for three or more. -/
def initialSlashes (cs : List Char) : Nat :=
  if ['/', '/', '/'].isPrefixOf cs then 1
  else if ['/', '/'].isPrefixOf cs then 2
  else if ['/'].isPrefixOf cs then 1
  else 0

/-- The body of `posixpath.normpath` on a non-empty path: split on
slashes, run the component loop, and re-join behind the preserved leading
slashes. -/
def normpathCore (n : Nat) (cs : List Char) : List Char :=
  List.replicate n '/' ++
    joinComps (((splitCharAux '/' cs []).foldl (normStep n) []).reverse)

/-- `posixpath.normpath`: collapse `.`, `..` and repeated slashes,
preserving one or two leading slashes. -/
def normpath (p : String) : String :=
  if p.data.isEmpty then "."
  else
    let joined := normpathCore (initialSlashes p.data) p.data
    if joined.isEmpty then "." else ⟨joined⟩

/-- `posixpath.abspath`, with the process working directory passed
explicitly: join onto the cwd when relative, then normalize. -/
def abspath (cwd p : String) : String :=
  normpath (if isabs p then p else joinPath cwd p)

/-- Directory resolution performed at the top of `find_documents`: an
absolute directory is used as-is; a relative one is joined onto the
directory containing the input file, normalized, and made absolute. -/
def resolveRoot (cwd input_filename directory : String) : String :=
  if isabs directory then directory
  else abspath cwd (normpath (joinPath (dirname input_filename) directory))

/-- Treatment of one filename inside the walk loop of `find_documents`:
regex match, account filtering with the strict-mode ancestry checks, then
date construction (which can raise) and directive creation. -/
def processFile (input_filename : String) (accounts_only : Option (List String))
    (strict : Bool) (root account_name filename : String) :
    Except Unit (List Entry × List DocumentError) :=
  match matchDated filename with
  | none => .ok ([], [])
  | some (y, m, d) =>
    let aoList := accounts_only.getD []
    if accountsOnlyTruthy accounts_only && !(aoList.contains account_name) then
      if strict then
        if aoList.any (fun account => pyStartsWith account_name account) then
          .ok ([], [⟨⟨input_filename, 0⟩,
            "Document '" ++ filename ++ "' found in child account " ++
              account_name ++ ".", none⟩])
        else if aoList.any (fun account => pyStartsWith account account_name) then
          .ok ([], [⟨⟨input_filename, 0⟩,
            "Document '" ++ filename ++ "' found in parent account " ++
              account_name ++ ".", none⟩])
        else .ok ([], [])
      else .ok ([], [])
    else
      match mkDate y m d with
      | none => .error ()
      | some date =>
        .ok ([.document ⟨⟨input_filename, 0⟩, date, account_name,
               joinPath root filename⟩], [])

/-- Run a step on every element, concatenating the produced entry and
error lists in order; an exception aborts the whole loop, discarding
everything accumulated so far (as a Python exception would). -/
def collectE {α β γ ε : Type} (f : α → Except ε (List β × List γ)) :
    List α → Except ε (List β × List γ)
  | [] => .ok ([], [])
  | x :: xs =>
    match f x with
    | .error e => .error e
    | .ok (bs, cs) =>
      match collectE f xs with
      | .error e => .error e
      | .ok (bs2, cs2) => .ok (bs ++ bs2, cs ++ cs2)

/-- Body of `find_documents` after directory resolution: the existence
check with its missing-root error, then the walk with the per-file
processing. -/
def findDocumentsAt (fs : FileSystem) (directory input_filename : String)
    (accounts_only : Option (List String)) (strict : Bool) :
    Except Unit (List Entry × List DocumentError) :=
  if !(fs.pathExists directory) then
    .ok ([], [⟨⟨input_filename, 0⟩,
      "Document root '" ++ directory ++ "' does not exist.", none⟩])
  else
    collectE
      (fun we => collectE
        (processFile input_filename accounts_only strict we.root we.account_name)
        we.files)
      (fs.walk directory)

/-- The Document Finder (`find_documents`).  The working directory of the
process is passed explicitly because `os.path.abspath` consults it. -/
def find_documents (fs : FileSystem) (cwd directory input_filename : String)
    (accounts_only : Option (List String)) (strict : Bool) :
    Except Unit (List Entry × List DocumentError) :=
  findDocumentsAt fs (resolveRoot cwd input_filename directory)
    input_filename accounts_only strict

/-- Error accumulation loop of `verify_document_entries`. -/
def verifyErrors (fs : FileSystem) : List Entry → List DocumentError
  | [] => []
  | e :: rest =>
    match e with
    | .document d =>
      if fs.pathExists d.filename then verifyErrors fs rest
      else ⟨d.source, "File does not exist: \"" ++ d.filename ++ "\"", some e⟩
             :: verifyErrors fs rest
    | .other _ => verifyErrors fs rest

/-- The Entry Verifier (`verify_document_entries`): returns the entry list
itself together with one error per document entry whose file is missing. -/
def verify_document_entries (fs : FileSystem) (entries : List Entry) :
    List Entry × List DocumentError :=
  (entries, verifyErrors fs entries)

/-- The options map fields consumed by the Orchestrator. -/
structure OptionsMap where
  filename : String
  documents : List String

/-- The accumulation loop over the configured document root directories
(`for directory in document_dirs`), guarded by the truthiness check
`if document_dirs:`. -/
def autodocResult (fs : FileSystem) (cwd : String)
    (get_accounts : List Entry → List String) (entries : List Entry)
    (options_map : OptionsMap) : Except Unit (List Entry × List DocumentError) :=
  if !options_map.documents.isEmpty then
    collectE (fun directory =>
      find_documents fs cwd directory options_map.filename
        (some (get_accounts entries)) false) options_map.documents
  else .ok ([], [])

/-- The Orchestrator (`process_documents`).  The external collaborators
`getters.get_accounts` (account extraction) and `data.entry_sortkey`
(global comparable sort key, into any linear order) are passed as
parameters; `entries.sort(key=data.entry_sortkey)` is modelled by a
stable sort with respect to the key order. -/
def process_documents {κ : Type} [LinearOrder κ] (fs : FileSystem) (cwd : String)
    (sortkey : Entry → κ) (get_accounts : List Entry → List String)
    (entries : List Entry) (options_map : OptionsMap) :
    Except Unit (List Entry × List DocumentError) :=
  let (entries, document_errors) := verify_document_entries fs entries
  match autodocResult fs cwd get_accounts entries options_map with
  | .error e => .error e
  | .ok (autodoc_entries, autodoc_errors) =>
    .ok ((entries ++ autodoc_entries).insertionSort
           (fun a b => sortkey a ≤ sortkey b),
         document_errors ++ autodoc_errors)

/-- Filename shape asserted by the specification: four digits, hyphen, two
digits, hyphen, two digits, then a single non-digit separator character,
then a non-empty remainder. -/
def specDatedShape : List Char → Bool
  | y1 :: y2 :: y3 :: y4 :: c5 :: m1 :: m2 :: c8 :: d1 :: d2 :: sep :: rest =>
    y1.isDigit && y2.isDigit && y3.isDigit && y4.isDigit && c5 == '-' &&
    m1.isDigit && m2.isDigit && c8 == '-' && d1.isDigit && d2.isDigit &&
    !sep.isDigit && !rest.isEmpty
  | _ => false

/-- Filename shape that the code actually recognizes: at least eleven
characters, the first ten being `YYYY-MM-DD`, and an eleventh character
that is not a newline; the separator may be any character (a digit
included) and the remainder may be empty. -/
def amendedDatedShape (cs : List Char) : Bool :=
  decide (11 ≤ cs.length) &&
  (cs.getD 0 ' ').isDigit && (cs.getD 1 ' ').isDigit &&
  (cs.getD 2 ' ').isDigit && (cs.getD 3 ' ').isDigit &&
  (cs.getD 4 ' ') == '-' &&
  (cs.getD 5 ' ').isDigit && (cs.getD 6 ' ').isDigit &&
  (cs.getD 7 ' ') == '-' &&
  (cs.getD 8 ' ').isDigit && (cs.getD 9 ' ').isDigit &&
  (cs.getD 10 ' ') != '\n'

/-- Whether an entry is a document directive whose file is missing. -/
def missingDocument (fs : FileSystem) : Entry → Bool
  | .document d => !fs.pathExists d.filename
  | .other _ => false

/-- The error record the specification prescribes for a document directive
whose file is missing: the directive's own source location, the message
with the quoted path, and the directive attached. -/
def missingFileError : Entry → DocumentError
  | .document d =>
    ⟨d.source, "File does not exist: \"" ++ d.filename ++ "\"", some (.document d)⟩
  | .other _ => ⟨⟨"", 0⟩, "", none⟩

/-- No path component of `p` is `.` or `..` (the normalization promise of
the specification: dot segments are collapsed away). -/
def noDotSegments (p : String) : Bool :=
  (splitCharAux '/' p.data []).all (fun c => !(c == ['.']) && !(c == ['.', '.']))

/-- A concrete sort key used to exercise the Orchestrator theorems on
closed inputs: documents sort with key 1, opaque entries with their tag. -/
def sortkeyDemo : Entry → Nat
  | .document _ => 1
  | .other n => n

/-! ## Theorems -/

theorem verifyErrors_eq_filter_map (fs : FileSystem) :
    ∀ entries : List Entry,
      verifyErrors fs entries = (entries.filter (missingDocument fs)).map missingFileError
  | [] => rfl
  | e :: rest => by
    cases e with
    | document d =>
      cases h : fs.pathExists d.filename with
      | true =>
        simp [verifyErrors, h, missingDocument, List.filter_cons,
          verifyErrors_eq_filter_map fs rest]
      | false =>
        simp [verifyErrors, h, missingDocument, missingFileError, List.filter_cons,
          verifyErrors_eq_filter_map fs rest]
    | other n =>
      simp [verifyErrors, missingDocument, List.filter_cons,
        verifyErrors_eq_filter_map fs rest]

/-- C4: the Entry Verifier returns its input directive stream unchanged,
and its error list consists of exactly one error per document directive
whose path does not exist — carrying the message
`File does not exist: "<path>"` and the offending directive attached —
while existing-path document directives and non-document directives
contribute nothing. -/
theorem verifier_stream_unchanged_missing_file_errors (fs : FileSystem)
    (entries : List Entry) :
    (verify_document_entries fs entries).1 = entries ∧
    (verify_document_entries fs entries).2 =
      (entries.filter (missingDocument fs)).map missingFileError :=
  ⟨rfl, verifyErrors_eq_filter_map fs entries⟩

/-- C5: when the resolved document root does not exist, the Finder
returns no directives and exactly one missing-root error with source
location `(input_filename, 0)` and no attached directive, and the
result does not depend on the directory walk at all. -/
theorem finder_missing_root (fs : FileSystem)
    (cwd directory input_filename : String)
    (accounts_only : Option (List String)) (strict : Bool)
    (h : fs.pathExists (resolveRoot cwd input_filename directory) = false) :
    find_documents fs cwd directory input_filename accounts_only strict =
      .ok ([], [⟨⟨input_filename, 0⟩,
        "Document root '" ++ resolveRoot cwd input_filename directory ++
          "' does not exist.", none⟩]) ∧
    ∀ w : String → List WalkEntry,
      find_documents ⟨fs.pathExists, w⟩ cwd directory input_filename
          accounts_only strict =
        find_documents fs cwd directory input_filename accounts_only strict := by
  constructor
  · simp [find_documents, findDocumentsAt, h]
  · intro w
    simp [find_documents, findDocumentsAt, h]

theorem finder_missing_root_witness :
    find_documents ⟨fun _ => false, fun _ => []⟩ "/" "/docs" "/l.bc" none false =
      .ok ([], [⟨⟨"/l.bc", 0⟩, "Document root '/docs' does not exist.", none⟩]) :=
  (finder_missing_root ⟨fun _ => false, fun _ => []⟩ "/" "/docs" "/l.bc"
    none false rfl).1

/-- C3 (code defect): a filename whose date groups do not form a valid
calendar date makes the Finder — and hence the Orchestrator — raise out of
the walk instead of returning a `(directives, errors)` pair: here
February 31st. -/
theorem finder_raises_on_invalid_date :
    find_documents ⟨fun _ => true, fun r => [⟨r, "Assets", [], ["2023-02-31-x.pdf"]⟩]⟩
      "/" "/docs" "/l.bc" none false = .error () ∧
    process_documents
      ⟨fun _ => true, fun r => [⟨r, "Assets", [], ["2023-02-31-x.pdf"]⟩]⟩
      "/" (fun _ => (0 : Nat)) (fun _ => []) [] ⟨"/l.bc", ["/docs"]⟩ = .error () :=
  ⟨rfl, rfl⟩

/-- C1 counterexample: the filename `2023-01-019` — whose character after
the date is the digit `9` and whose remainder is empty, hence not of the
claimed shape — is nonetheless recognized by the Finder and produces a
directive. -/
theorem dated_pattern_claim_cex :
    specDatedShape ("2023-01-019").data = false ∧
    find_documents ⟨fun _ => true, fun r => [⟨r, "Assets", [], ["2023-01-019"]⟩]⟩
      "/" "/docs" "/l.bc" none false =
      .ok ([Entry.document ⟨⟨"/l.bc", 0⟩, ⟨2023, 1, 1⟩, "Assets",
        "/docs/2023-01-019"⟩], []) :=
  ⟨by decide, rfl⟩

/-- C2 counterexample: under filter `{Assets:Bank}` in strict mode, a
dated file in account `Assets:BankX` is related to the filter by neither
prefix-plus-separator relation, yet the code emits a child-account error,
because the ancestry test is a bare string-prefix test. -/
theorem strict_scope_claim_cex :
    find_documents ⟨fun _ => true, fun r => [⟨r, "Assets:BankX", [], ["2023-01-01-a.pdf"]⟩]⟩
      "/" "/docs" "/l.bc" (some ["Assets:Bank"]) true =
      .ok ([], [⟨⟨"/l.bc", 0⟩,
        "Document '2023-01-01-a.pdf' found in child account Assets:BankX.", none⟩]) ∧
    pyStartsWith "Assets:BankX" ("Assets:Bank" ++ ":") = false ∧
    pyStartsWith "Assets:Bank" ("Assets:BankX" ++ ":") = false :=
  ⟨rfl, by decide, by decide⟩

/-- C2 amended: in strict mode with a truthy account filter, a matching
file in a non-member account produces exactly one child-account error when
the account name extends some filtered name as a bare string prefix, else
exactly one parent-account error when some filtered name extends it as a
bare string prefix, else nothing; never a directive. -/
theorem strict_scope_errors (input_filename : String) (aoL : List String)
    (root acct f : String)
    (hmatch : (matchDated f).isSome = true)
    (htruthy : aoL ≠ [])
    (hmem : aoL.contains acct = false) :
    processFile input_filename (some aoL) true root acct f =
      (if aoL.any (fun account => pyStartsWith acct account) then
        .ok ([], [⟨⟨input_filename, 0⟩,
          "Document '" ++ f ++ "' found in child account " ++ acct ++ ".", none⟩])
      else if aoL.any (fun account => pyStartsWith account acct) then
        .ok ([], [⟨⟨input_filename, 0⟩,
          "Document '" ++ f ++ "' found in parent account " ++ acct ++ ".", none⟩])
      else .ok ([], [])) := by
  have hc : (accountsOnlyTruthy (some aoL) && !(List.contains aoL acct)) = true := by
    simp [accountsOnlyTruthy, List.isEmpty_eq_false.mpr htruthy]
    simpa using hmem
  obtain ⟨t, hm⟩ : ∃ t, matchDated f = some t := by
    cases hmm : matchDated f
    · rw [hmm] at hmatch; simp at hmatch
    · exact ⟨_, rfl⟩
  obtain ⟨y, m, d⟩ := t
  unfold processFile
  rw [hm]
  dsimp only [Option.getD]
  rw [hc, if_pos rfl, if_pos rfl]

theorem strict_scope_errors_witness :
    processFile "/l.bc" (some ["Assets:Bank:Checking"]) true "/docs"
        "Assets:Bank:Checking:Sub" "2023-01-01-a.pdf" =
      .ok ([], [⟨⟨"/l.bc", 0⟩,
        "Document '2023-01-01-a.pdf' found in child account Assets:Bank:Checking:Sub.",
        none⟩]) ∧
    processFile "/l.bc" (some ["Assets:Bank:Checking"]) true "/docs"
        "Assets" "2023-01-01-a.pdf" =
      .ok ([], [⟨⟨"/l.bc", 0⟩,
        "Document '2023-01-01-a.pdf' found in parent account Assets.", none⟩]) := by
  constructor
  · have h := strict_scope_errors "/l.bc" ["Assets:Bank:Checking"] "/docs"
      "Assets:Bank:Checking:Sub" "2023-01-01-a.pdf" (by decide) (by decide) (by decide)
    simpa using h
  · have h := strict_scope_errors "/l.bc" ["Assets:Bank:Checking"] "/docs"
      "Assets" "2023-01-01-a.pdf" (by decide) (by decide) (by decide)
    simpa using h

/-- C1 amended: a filename is recognized by the Finder exactly when it has
at least eleven characters, the first ten form `YYYY-MM-DD`, and the
eleventh is not a newline (the separator may be a digit and the remainder
may be empty); every unrecognized filename is skipped silently, producing
neither a directive nor an error. -/
theorem dated_pattern_recognition (inp : String) (ao : Option (List String))
    (strict : Bool) (root acct f : String) :
    (matchDated f).isSome = amendedDatedShape f.data ∧
    (matchDated f = none →
      processFile inp ao strict root acct f = .ok ([], [])) := by
  constructor
  · show (reMatchDated f.data).isSome = amendedDatedShape f.data
    rcases hcs : f.data with _ | ⟨y1, _ | ⟨y2, _ | ⟨y3, _ | ⟨y4, _ | ⟨c5, _ | ⟨m1,
      _ | ⟨m2, _ | ⟨c8, _ | ⟨d1, _ | ⟨d2, _ | ⟨sep, rest⟩⟩⟩⟩⟩⟩⟩⟩⟩⟩⟩ <;>
      first
      | rfl
      | · have hlen : decide (11 ≤ (y1 :: y2 :: y3 :: y4 :: c5 :: m1 :: m2 :: c8 ::
            d1 :: d2 :: sep :: rest).length) = true := by
            simp only [List.length_cons, decide_eq_true_eq]
            omega
          simp only [reMatchDated, amendedDatedShape, List.getD, hlen, Bool.true_and]
          split <;> simp_all
  · intro h
    simp [processFile, h]

theorem dated_pattern_recognition_witness :
    (matchDated "2023-01-01-st.pdf").isSome =
      amendedDatedShape ("2023-01-01-st.pdf").data ∧
    processFile "/l.bc" none false "/d" "A" "receipt.pdf" = .ok ([], []) :=
  ⟨(dated_pattern_recognition "/l.bc" none false "/d" "A" "2023-01-01-st.pdf").1,
   (dated_pattern_recognition "/l.bc" none false "/d" "A" "receipt.pdf").2 (by decide)⟩

theorem processFile_strict_irrel (inp : String) (ao : Option (List String))
    (hao : accountsOnlyTruthy ao = false) (s1 s2 : Bool) (root acct f : String) :
    processFile inp ao s1 root acct f = processFile inp ao s2 root acct f := by
  unfold processFile
  cases matchDated f with
  | none => rfl
  | some t => obtain ⟨y, m, d⟩ := t; simp [hao]

theorem collectE_congr {α β γ ε : Type} {f g : α → Except ε (List β × List γ)}
    (h : ∀ x, f x = g x) : ∀ l, collectE f l = collectE g l
  | [] => rfl
  | x :: xs => by simp only [collectE, h x, collectE_congr h xs]

/-- C9: with an absent (`None`) or empty account filter the strict flag is
unobservable — the Finder returns the same result for `strict = s1` and
`strict = s2`, whatever the directory tree and paths. -/
theorem finder_strict_noop_without_filter (fs : FileSystem)
    (cwd directory input_filename : String) (s1 s2 : Bool) :
    find_documents fs cwd directory input_filename none s1 =
      find_documents fs cwd directory input_filename none s2 ∧
    find_documents fs cwd directory input_filename (some []) s1 =
      find_documents fs cwd directory input_filename (some []) s2 := by
  constructor <;>
  · unfold find_documents findDocumentsAt
    cases fs.pathExists (resolveRoot cwd input_filename directory) with
    | false => rfl
    | true =>
      apply collectE_congr
      intro we
      apply collectE_congr
      intro fn
      exact processFile_strict_irrel _ _ (by rfl) _ _ _ _ fn

theorem collectE_ok_mem_snd {α β γ ε : Type} {f : α → Except ε (List β × List γ)}
    {P : γ → Prop}
    (hf : ∀ x bs cs, f x = .ok (bs, cs) → ∀ c ∈ cs, P c) :
    ∀ l BS CS, collectE f l = .ok (BS, CS) → ∀ c ∈ CS, P c := by
  intro l
  induction l with
  | nil =>
    intro BS CS h c hc
    simp only [collectE] at h
    cases h
    simp at hc
  | cons x xs ih =>
    intro BS CS h c hc
    simp only [collectE] at h
    cases hfx : f x with
    | error e => rw [hfx] at h; cases h
    | ok p =>
      obtain ⟨bs, cs⟩ := p
      rw [hfx] at h
      cases hrec : collectE f xs with
      | error e => rw [hrec] at h; cases h
      | ok q =>
        obtain ⟨bs2, cs2⟩ := q
        rw [hrec] at h
        cases h
        rcases List.mem_append.mp hc with hc1 | hc2
        · exact hf x bs cs hfx c hc1
        · exact ih bs2 cs2 hrec c hc2

theorem processFile_errors_entry_none (inp : String) (ao : Option (List String))
    (strict : Bool) (root acct f : String) (bs : List Entry)
    (cs : List DocumentError)
    (h : processFile inp ao strict root acct f = .ok (bs, cs)) :
    ∀ c ∈ cs, c.entry = none := by
  unfold processFile at h
  cases hm : matchDated f with
  | none => rw [hm] at h; cases h; simp
  | some t =>
    obtain ⟨y, m, d⟩ := t
    rw [hm] at h
    dsimp only [Option.getD] at h
    split at h
    · split at h
      · split at h
        · cases h; intro c hc; rw [List.mem_singleton.mp hc]
        · split at h
          · cases h; intro c hc; rw [List.mem_singleton.mp hc]
          · cases h; simp
      · cases h; simp
    · split at h
      · cases h
      · cases h; simp

/-- C10: every error the Finder produces (missing root and both strict
scope-violation variants) carries no attached directive, while every
error from the Entry Verifier carries the offending missing-file document
directive as its attached entry. -/
theorem error_entry_attachment (fs : FileSystem)
    (cwd directory input_filename : String)
    (accounts_only : Option (List String)) (strict : Bool)
    (entries : List Entry) :
    (∀ es errs, find_documents fs cwd directory input_filename accounts_only strict =
        .ok (es, errs) → ∀ err ∈ errs, err.entry = none) ∧
    (∀ err ∈ (verify_document_entries fs entries).2,
      ∃ d, err.entry = some (Entry.document d) ∧ Entry.document d ∈ entries ∧
        fs.pathExists d.filename = false) := by
  constructor
  · intro es errs h err herr
    unfold find_documents findDocumentsAt at h
    cases hp : fs.pathExists (resolveRoot cwd input_filename directory) with
    | false =>
      rw [hp] at h
      simp only [Bool.not_false, if_pos] at h
      cases h
      rw [List.mem_singleton.mp herr]
    | true =>
      rw [hp] at h
      simp only [Bool.not_true] at h
      rw [if_neg (by simp)] at h
      exact collectE_ok_mem_snd
        (fun we BS CS hwe => collectE_ok_mem_snd
          (fun fn bs cs hfn => processFile_errors_entry_none _ _ _ _ _ _ _ _ hfn)
          we.files BS CS hwe)
        _ es errs h err herr
  · show ∀ err ∈ verifyErrors fs entries, _
    induction entries with
    | nil => intro err herr; simp [verifyErrors] at herr
    | cons e rest ih =>
      intro err herr
      cases e with
      | document d =>
        cases hex : fs.pathExists d.filename with
        | true =>
          rw [verifyErrors, hex] at herr
          simp only [if_pos] at herr
          obtain ⟨dd, h1, h2, h3⟩ := ih err herr
          exact ⟨dd, h1, List.mem_cons_of_mem _ h2, h3⟩
        | false =>
          rw [verifyErrors, hex] at herr
          simp only [Bool.false_eq_true, if_false] at herr
          rcases List.mem_cons.mp herr with heq | hmem
          · exact ⟨d, by rw [heq], List.mem_cons_self _ _, hex⟩
          · obtain ⟨dd, h1, h2, h3⟩ := ih err hmem
            exact ⟨dd, h1, List.mem_cons_of_mem _ h2, h3⟩
      | other n =>
        rw [verifyErrors] at herr
        obtain ⟨dd, h1, h2, h3⟩ := ih err herr
        exact ⟨dd, h1, List.mem_cons_of_mem _ h2, h3⟩

theorem error_entry_attachment_witness :
    (∀ err ∈ [(⟨⟨"/l.bc", 0⟩, "Document root '/docs' does not exist.", none⟩ :
        DocumentError)], err.entry = none) ∧
    (∃ d, (⟨⟨"f", 1⟩, "File does not exist: \"/x\"",
        some (Entry.document ⟨⟨"f", 1⟩, ⟨2020, 1, 1⟩, "A", "/x"⟩)⟩ :
          DocumentError).entry = some (Entry.document d) ∧
      Entry.document d ∈
        [Entry.document ⟨⟨"f", 1⟩, ⟨2020, 1, 1⟩, "A", "/x"⟩] ∧
      (false : Bool) = false) :=
  ⟨fun err herr =>
    (error_entry_attachment ⟨fun _ => false, fun _ => []⟩ "/" "/docs" "/l.bc" none
      false [Entry.document ⟨⟨"f", 1⟩, ⟨2020, 1, 1⟩, "A", "/x"⟩]).1 [] _ rfl err herr,
   (error_entry_attachment ⟨fun _ => false, fun _ => []⟩ "/" "/docs" "/l.bc" none
      false [Entry.document ⟨⟨"f", 1⟩, ⟨2020, 1, 1⟩, "A", "/x"⟩]).2 _ (by decide)⟩

/-- C6: whenever the Orchestrator returns normally, its output entry list
has length equal to the input length plus the total number of directives
synthesized across all configured root directories, and it is sorted
non-decreasingly by the global entry sort key. -/
theorem orchestrator_merge_length_sorted {κ : Type} [LinearOrder κ]
    (fs : FileSystem) (cwd : String) (sortkey : Entry → κ)
    (get_accounts : List Entry → List String) (entries : List Entry)
    (options_map : OptionsMap) (out : List Entry) (errs : List DocumentError)
    (h : process_documents fs cwd sortkey get_accounts entries options_map =
      .ok (out, errs)) :
    ∃ autodoc_entries autodoc_errors,
      autodocResult fs cwd get_accounts entries options_map =
        .ok (autodoc_entries, autodoc_errors) ∧
      out.length = entries.length + autodoc_entries.length ∧
      List.Sorted (fun a b => sortkey a ≤ sortkey b) out := by
  unfold process_documents at h
  simp only [verify_document_entries] at h
  cases har : autodocResult fs cwd get_accounts entries options_map with
  | error e => rw [har] at h; cases h
  | ok p =>
    obtain ⟨ae, aerr⟩ := p
    rw [har] at h
    cases h
    refine ⟨ae, aerr, rfl, ?_, ?_⟩
    · rw [List.length_insertionSort, List.length_append]
    · haveI : IsTotal Entry (fun a b => sortkey a ≤ sortkey b) :=
        ⟨fun a b => le_total _ _⟩
      haveI : IsTrans Entry (fun a b => sortkey a ≤ sortkey b) :=
        ⟨fun _ _ _ hab hbc => le_trans hab hbc⟩
      exact List.sorted_insertionSort _ _

theorem orchestrator_merge_length_sorted_witness :
    ∃ autodoc_entries autodoc_errors,
      autodocResult ⟨fun _ => true, fun r => [⟨r, "Assets", [], ["2020-01-02-a.txt"]⟩]⟩
          "/" (fun _ => ["Assets"]) [Entry.other 5] ⟨"/l.bc", ["/docs"]⟩ =
        .ok (autodoc_entries, autodoc_errors) ∧
      ([Entry.document ⟨⟨"/l.bc", 0⟩, ⟨2020, 1, 2⟩, "Assets",
          "/docs/2020-01-02-a.txt"⟩, Entry.other 5]).length =
        ([Entry.other 5]).length + autodoc_entries.length ∧
      List.Sorted (fun a b => sortkeyDemo a ≤ sortkeyDemo b)
        [Entry.document ⟨⟨"/l.bc", 0⟩, ⟨2020, 1, 2⟩, "Assets",
          "/docs/2020-01-02-a.txt"⟩, Entry.other 5] :=
  orchestrator_merge_length_sorted
    ⟨fun _ => true, fun r => [⟨r, "Assets", [], ["2020-01-02-a.txt"]⟩]⟩ "/"
    sortkeyDemo
    (fun _ => ["Assets"]) [Entry.other 5] ⟨"/l.bc", ["/docs"]⟩
    [Entry.document ⟨⟨"/l.bc", 0⟩, ⟨2020, 1, 2⟩, "Assets",
      "/docs/2020-01-02-a.txt"⟩, Entry.other 5] [] rfl

theorem collectE_ok_decompose {α β γ ε : Type} {f : α → Except ε (List β × List γ)} :
    ∀ l BS CS, collectE f l = .ok (BS, CS) →
      ∃ rs : List (List β × List γ),
        l.map f = rs.map Except.ok ∧
        BS = (rs.map Prod.fst).flatten ∧ CS = (rs.map Prod.snd).flatten := by
  intro l
  induction l with
  | nil =>
    intro BS CS h
    simp only [collectE] at h
    cases h
    exact ⟨[], by simp⟩
  | cons x xs ih =>
    intro BS CS h
    simp only [collectE] at h
    cases hfx : f x with
    | error e => rw [hfx] at h; cases h
    | ok p =>
      obtain ⟨bs, cs⟩ := p
      rw [hfx] at h
      cases hrec : collectE f xs with
      | error e => rw [hrec] at h; cases h
      | ok q =>
        obtain ⟨bs2, cs2⟩ := q
        rw [hrec] at h
        cases h
        obtain ⟨rs, h1, h2, h3⟩ := ih bs2 cs2 hrec
        exact ⟨(bs, cs) :: rs, by simp [hfx, h1], by simp [h2], by simp [h3]⟩

/-- C7: whenever the Orchestrator returns normally, its error list is the
Verifier's errors followed by the per-root Finder error blocks in
configuration order. -/
theorem orchestrator_error_order {κ : Type} [LinearOrder κ]
    (fs : FileSystem) (cwd : String) (sortkey : Entry → κ)
    (get_accounts : List Entry → List String) (entries : List Entry)
    (options_map : OptionsMap) (out : List Entry) (errs : List DocumentError)
    (h : process_documents fs cwd sortkey get_accounts entries options_map =
      .ok (out, errs)) :
    ∃ perRoot : List (List Entry × List DocumentError),
      options_map.documents.map (fun directory =>
        find_documents fs cwd directory options_map.filename
          (some (get_accounts entries)) false) = perRoot.map Except.ok ∧
      errs = (verify_document_entries fs entries).2 ++
        (perRoot.map Prod.snd).flatten := by
  unfold process_documents at h
  simp only [verify_document_entries] at h
  cases har : autodocResult fs cwd get_accounts entries options_map with
  | error e => rw [har] at h; cases h
  | ok p =>
    obtain ⟨ae, aerr⟩ := p
    rw [har] at h
    cases h
    unfold autodocResult at har
    cases hd : options_map.documents with
    | nil =>
      rw [hd] at har
      simp only [List.isEmpty_nil, Bool.not_true, Bool.false_eq_true, if_false] at har
      cases har
      refine ⟨[], ?_, ?_⟩
      · rfl
      · show verifyErrors fs entries ++ [] = _ ++ _
        simp [verify_document_entries]
    | cons d ds =>
      rw [hd] at har
      simp only [List.isEmpty_cons, Bool.not_false, if_true] at har
      obtain ⟨rs, h1, h2, h3⟩ := collectE_ok_decompose _ _ _ har
      refine ⟨rs, ?_, ?_⟩
      · exact h1
      · rw [h3]; rfl

theorem orchestrator_error_order_witness :
    ∃ perRoot : List (List Entry × List DocumentError),
      (["/docs"].map (fun directory =>
        find_documents ⟨fun _ => true, fun r => [⟨r, "Assets", [], ["2020-01-02-a.txt"]⟩]⟩
          "/" directory "/l.bc" (some ["Assets"]) false)) = perRoot.map Except.ok ∧
      ([] : List DocumentError) =
        (verify_document_entries
          ⟨fun _ => true, fun r => [⟨r, "Assets", [], ["2020-01-02-a.txt"]⟩]⟩
          [Entry.other 5]).2 ++ (perRoot.map Prod.snd).flatten :=
  orchestrator_error_order
    ⟨fun _ => true, fun r => [⟨r, "Assets", [], ["2020-01-02-a.txt"]⟩]⟩ "/"
    sortkeyDemo
    (fun _ => ["Assets"]) [Entry.other 5] ⟨"/l.bc", ["/docs"]⟩
    [Entry.document ⟨⟨"/l.bc", 0⟩, ⟨2020, 1, 2⟩, "Assets",
      "/docs/2020-01-02-a.txt"⟩, Entry.other 5] [] rfl

theorem splitCharAux_no_sep (sep : Char) :
    ∀ (cs acc : List Char), (∀ c ∈ acc, c ≠ sep) →
      ∀ p ∈ splitCharAux sep cs acc, ∀ c ∈ p, c ≠ sep
  | [], acc, hacc, p, hp, c, hc => by
    simp only [splitCharAux, List.mem_singleton] at hp
    subst hp
    exact hacc c (List.mem_reverse.mp hc)
  | x :: cs, acc, hacc, p, hp, c, hc => by
    by_cases hx : (x == sep) = true
    · rw [splitCharAux, if_pos hx] at hp
      rcases List.mem_cons.mp hp with h1 | h2
      · subst h1
        exact hacc c (List.mem_reverse.mp hc)
      · exact splitCharAux_no_sep sep cs [] (by simp) p h2 c hc
    · rw [splitCharAux, if_neg hx] at hp
      refine splitCharAux_no_sep sep cs (x :: acc) ?_ p hp c hc
      intro c' hc'
      rcases List.mem_cons.mp hc' with h1 | h2
      · subst h1
        simpa using hx
      · exact hacc c' h2

theorem splitCharAux_append_no_sep (sep : Char) :
    ∀ (xs ys acc : List Char), (∀ c ∈ xs, c ≠ sep) →
      splitCharAux sep (xs ++ ys) acc = splitCharAux sep ys (xs.reverse ++ acc)
  | [], ys, acc, _ => by simp
  | x :: xs, ys, acc, h => by
    have hx : (x == sep) = false := by
      simpa using h x (List.mem_cons_self _ _)
    rw [List.cons_append, splitCharAux, if_neg (by simp [hx]),
      splitCharAux_append_no_sep sep xs ys (x :: acc)
        (fun c hc => h c (List.mem_cons_of_mem _ hc))]
    simp

theorem splitCharAux_joinComps :
    ∀ L : List (List Char), L ≠ [] → (∀ p ∈ L, ∀ c ∈ p, c ≠ '/') →
      splitCharAux '/' (joinComps L) [] = L
  | [], h, _ => absurd rfl h
  | [c], _, hL => by
    have : joinComps [c] = c ++ [] := by simp [joinComps]
    rw [this, splitCharAux_append_no_sep '/' c [] []
      (fun x hx => hL c (List.mem_singleton.mpr rfl) x hx)]
    simp [splitCharAux]
  | c :: c2 :: rest, _, hL => by
    have hj : joinComps (c :: c2 :: rest) = c ++ '/' :: joinComps (c2 :: rest) := rfl
    rw [hj, splitCharAux_append_no_sep '/' c _ []
      (fun x hx => hL c (List.mem_cons_self _ _) x hx)]
    rw [splitCharAux, if_pos (by simp)]
    rw [splitCharAux_joinComps (c2 :: rest) (by simp)
      (fun p hp => hL p (List.mem_cons_of_mem _ hp))]
    simp

theorem splitCharAux_replicate :
    ∀ (n : Nat) (z : List Char),
      splitCharAux '/' (List.replicate n '/' ++ z) [] =
        List.replicate n [] ++ splitCharAux '/' z []
  | 0, z => by simp
  | n + 1, z => by
    rw [List.replicate_succ, List.cons_append, splitCharAux, if_pos (by simp),
      splitCharAux_replicate n z]
    simp [List.replicate_succ]

theorem foldl_normStep_good {n : Nat} (hn : n ≠ 0) :
    ∀ (comps acc : List (List Char)),
      (∀ x ∈ acc, x ≠ [] ∧ x ≠ ['.'] ∧ x ≠ ['.', '.'] ∧ ∀ c ∈ x, c ≠ '/') →
      (∀ p ∈ comps, ∀ c ∈ p, c ≠ '/') →
      ∀ x ∈ comps.foldl (normStep n) acc,
        x ≠ [] ∧ x ≠ ['.'] ∧ x ≠ ['.', '.'] ∧ ∀ c ∈ x, c ≠ '/'
  | [], acc, hacc, _, x, hx => hacc x (by simpa using hx)
  | comp :: comps, acc, hacc, hcomps, x, hx => by
    rw [List.foldl_cons] at hx
    refine foldl_normStep_good hn comps (normStep n acc comp) ?_
      (fun p hp => hcomps p (List.mem_cons_of_mem _ hp)) x hx
    intro y hy
    unfold normStep at hy
    split at hy
    · exact hacc y hy
    · split at hy
      · rcases List.mem_cons.mp hy with h1 | h2
        · subst h1
          rename_i hskip hcons
          have hne : y ≠ [] ∧ y ≠ ['.'] := by
            constructor <;> intro he <;> subst he <;> simp at hskip
          refine ⟨hne.1, hne.2, ?_, fun c hc => hcomps y (List.mem_cons_self _ _) c hc⟩
          intro he
          subst he
          simp only [bne_self_eq_false, Bool.false_or, Bool.or_eq_true,
            Bool.and_eq_true, beq_iff_eq] at hcons
          rcases hcons with ⟨hn0, _⟩ | hhead
          · exact hn hn0
          · have hmem : ['.', '.'] ∈ acc := by
              cases hacc' : acc.head? with
              | none => rw [hacc'] at hhead; simp at hhead
              | some z =>
                rw [hacc'] at hhead
                simp only [Option.some.injEq, beq_iff_eq] at hhead
                subst hhead
                exact List.mem_of_mem_head? hacc'
            exact (hacc _ hmem).2.2.1 rfl
        · exact hacc y h2
      · split at hy
        · exact hacc y (List.mem_of_mem_tail hy)
        · exact hacc y hy

theorem normpathCore_head (cs : List Char) {n : Nat} (hn : n ≠ 0) :
    ∃ t, normpathCore n cs = '/' :: t := by
  obtain ⟨m, rfl⟩ := Nat.exists_eq_succ_of_ne_zero hn
  refine ⟨List.replicate m '/' ++
    joinComps (((splitCharAux '/' cs []).foldl (normStep (m + 1)) []).reverse), ?_⟩
  simp [normpathCore, List.replicate_succ]

theorem normpathCore_noDot (cs : List Char) {n : Nat} (hn : n ≠ 0) :
    ∀ x ∈ splitCharAux '/' (normpathCore n cs) [],
      x ≠ ['.'] ∧ x ≠ ['.', '.'] := by
  have hLgood : ∀ x ∈ ((splitCharAux '/' cs []).foldl (normStep n) []).reverse,
      x ≠ [] ∧ x ≠ ['.'] ∧ x ≠ ['.', '.'] ∧ ∀ c ∈ x, c ≠ '/' := fun x hx =>
    foldl_normStep_good hn (splitCharAux '/' cs []) [] (by simp)
      (splitCharAux_no_sep '/' cs [] (by simp)) x (List.mem_reverse.mp hx)
  unfold normpathCore
  rw [splitCharAux_replicate]
  intro x hx
  rcases List.mem_append.mp hx with h1 | h2
  · have hx0 : x = [] := List.eq_of_mem_replicate h1
    subst hx0
    exact ⟨by simp, by simp⟩
  · by_cases hL : ((splitCharAux '/' cs []).foldl (normStep n) []).reverse = []
    · rw [hL] at h2
      simp only [joinComps, splitCharAux, List.reverse_nil, List.mem_singleton] at h2
      subst h2
      exact ⟨by simp, by simp⟩
    · rw [splitCharAux_joinComps _ hL (fun p hp => (hLgood p hp).2.2.2)] at h2
      exact ⟨(hLgood x h2).2.1, (hLgood x h2).2.2.1⟩

theorem isabs_data {p : String} (h : isabs p = true) : ∃ t, p.data = '/' :: t := by
  unfold isabs at h
  cases hd : p.data with
  | nil => rw [hd] at h; simp [List.isPrefixOf] at h
  | cons a t =>
    rw [hd] at h
    simp only [List.isPrefixOf, Bool.and_eq_true, beq_iff_eq] at h
    exact ⟨t, by rw [← h.1]⟩

theorem initialSlashes_pos {cs : List Char} (h : ['/'].isPrefixOf cs = true) :
    initialSlashes cs = 1 ∨ initialSlashes cs = 2 := by
  unfold initialSlashes
  by_cases h3 : ['/', '/', '/'].isPrefixOf cs = true
  · rw [if_pos h3]
    exact .inl rfl
  · rw [if_neg h3]
    by_cases h2 : ['/', '/'].isPrefixOf cs = true
    · rw [if_pos h2]
      exact .inr rfl
    · rw [if_neg h2, if_pos h]
      exact .inl rfl

theorem normpath_abs_noDot {p : String} (h : isabs p = true) :
    isabs (normpath p) = true ∧ noDotSegments (normpath p) = true := by
  obtain ⟨t0, hdata⟩ := isabs_data h
  have hne : p.data.isEmpty = false := by rw [hdata]; rfl
  have hpre : ['/'].isPrefixOf p.data = true := h
  have hn0 : initialSlashes p.data ≠ 0 := by
    rcases initialSlashes_pos hpre with h1 | h1 <;> rw [h1] <;> simp
  obtain ⟨t, hcore⟩ := normpathCore_head p.data hn0
  unfold normpath
  rw [if_neg (by simp [hne])]
  dsimp only
  rw [hcore, if_neg (by simp)]
  constructor
  · show (['/'].isPrefixOf ('/' :: t)) = true
    simp [List.isPrefixOf]
  · show ((splitCharAux '/' ('/' :: t) []).all _) = true
    rw [← hcore, List.all_eq_true]
    intro x hx
    have hgood := normpathCore_noDot p.data hn0 x hx
    simp [hgood.1, hgood.2]

theorem isabs_append {a : String} (h : isabs a = true) (b : String) :
    isabs (a ++ b) = true := by
  obtain ⟨t, hd⟩ := isabs_data h
  show ['/'].isPrefixOf (a ++ b).data = true
  rw [String.data_append, hd]
  simp [List.isPrefixOf]

theorem isabs_joinPath {a : String} (h : isabs a = true) (b : String) :
    isabs (joinPath a b) = true := by
  unfold joinPath
  split
  · assumption
  · split
    · exact isabs_append h b
    · exact isabs_append (isabs_append h "/") b

/-- C8: the Finder resolves its directory argument before the existence
check and the walk: an absolute directory is used as-is; a relative one is
joined onto the directory containing the ledger file and normalized, and —
whenever the process working directory is absolute, as `os.getcwd`
guarantees — the resolved root is an absolute path containing no `.` or
`..` segments. -/
theorem finder_directory_resolution (fs : FileSystem)
    (cwd directory input_filename : String)
    (accounts_only : Option (List String)) (strict : Bool) :
    find_documents fs cwd directory input_filename accounts_only strict =
      findDocumentsAt fs (resolveRoot cwd input_filename directory)
        input_filename accounts_only strict ∧
    (isabs directory = true → resolveRoot cwd input_filename directory = directory) ∧
    (isabs directory = false →
      resolveRoot cwd input_filename directory =
        abspath cwd (normpath (joinPath (dirname input_filename) directory))) ∧
    (isabs directory = false → isabs cwd = true →
      isabs (resolveRoot cwd input_filename directory) = true ∧
      noDotSegments (resolveRoot cwd input_filename directory) = true) := by
  refine ⟨rfl, ?_, ?_, ?_⟩
  · intro h
    unfold resolveRoot
    rw [if_pos h]
  · intro h
    unfold resolveRoot
    rw [if_neg (by simp [h])]
  · intro h hcwd
    unfold resolveRoot
    rw [if_neg (by simp [h])]
    unfold abspath
    apply normpath_abs_noDot
    split
    · assumption
    · exact isabs_joinPath hcwd _

theorem finder_directory_resolution_witness :
    (resolveRoot "/cwd" "/ledger/main.bc" "/docs" = "/docs") ∧
    (resolveRoot "/cwd" "/ledger/main.bc" "../archive/docs" =
      abspath "/cwd" (normpath (joinPath (dirname "/ledger/main.bc") "../archive/docs"))) ∧
    (isabs (resolveRoot "/cwd" "/ledger/main.bc" "../archive/docs") = true ∧
      noDotSegments (resolveRoot "/cwd" "/ledger/main.bc" "../archive/docs") = true) :=
  ⟨(finder_directory_resolution ⟨fun _ => false, fun _ => []⟩ "/cwd" "/docs"
      "/ledger/main.bc" none false).2.1 (by decide),
   (finder_directory_resolution ⟨fun _ => false, fun _ => []⟩ "/cwd" "../archive/docs"
      "/ledger/main.bc" none false).2.2.1 (by decide),
   (finder_directory_resolution ⟨fun _ => false, fun _ => []⟩ "/cwd" "../archive/docs"
      "/ledger/main.bc" none false).2.2.2 (by decide) (by decide)⟩
